import Mathlib

/-!
Verification of the shove static-site server (Rust) against its
natural-language specification, via a shallow embedding of the relevant
source functions into Lean.

Conventions of the embedding:
- Rust strings are `List Char`; byte buffers are `List Nat`.
- `HashMap` values are association lists with unique keys; `HashSet` values
  are duplicate-free lists.
- External library functions (SHA-256 from the sha2 crate, the regex crate
  matcher, the argon2 verifier, base64 and UTF-8 decoding) are taken as
  explicit function parameters: the properties proved here do not depend on
  their internals, only on how the repository code consumes their results.
- Asynchronous I/O results (object-store fetches, the try-lock outcome, the
  rate-limiter decision) are passed in as explicit inputs, turning each
  stateful Rust method into a pure state-transition function.
-/

namespace Shove

/-- Rust strings, embedded as lists of characters. -/
abbrev Str := List Char

/-- Byte strings (Rust Vec of u8). -/
abbrev Bytes := List Nat

/-- Lookup in an association list, the embedding of HashMap get: returns the
value stored under the first matching key. -/
def lookupKey {α β : Type} [DecidableEq α] (k : α) : List (α × β) → Option β
  | [] => none
  | (k', v) :: rest => if k' = k then some v else lookupKey k rest

/-- Removal of a key from an association list, the embedding of HashMap
remove (keys are unique in a HashMap, so filtering removes the one entry). -/
def removeKey {α β : Type} [DecidableEq α] (k : α) (l : List (α × β)) :
    List (α × β) :=
  l.filter (fun kv => kv.1 ≠ k)

/-- Insertion into an association list, the embedding of HashMap or cache
insert: replaces any entry stored under the same key. -/
def insertKey {α β : Type} [DecidableEq α] (k : α) (v : β) (l : List (α × β)) :
    List (α × β) :=
  (k, v) :: removeKey k l

theorem lookupKey_eq_none {α β : Type} [DecidableEq α] (k : α)
    (l : List (α × β)) : lookupKey k l = none ↔ k ∉ l.map Prod.fst := by
  induction l with
  | nil => simp [lookupKey]
  | cons kv rest ih =>
    obtain ⟨k', v⟩ := kv
    by_cases h : k' = k
    · subst h
      simp [lookupKey]
    · simp only [lookupKey, if_neg h, List.map_cons, List.mem_cons]
      rw [ih]
      constructor
      · intro hn
        rintro (he | hm)
        · exact h he.symm
        · exact hn hm
      · intro hn hm
        exact hn (Or.inr hm)

theorem lookupKey_isSome {α β : Type} [DecidableEq α] (k : α)
    (l : List (α × β)) : (∃ v, lookupKey k l = some v) ↔ k ∈ l.map Prod.fst := by
  rcases h : lookupKey k l with _ | v
  · simp [h, (lookupKey_eq_none k l).mp h]
  · have : k ∈ l.map Prod.fst := by
      by_contra hk
      rw [(lookupKey_eq_none k l).mpr hk] at h
      exact Option.noConfusion h
    simp [h, this]

theorem lookupKey_mem {α β : Type} [DecidableEq α] (k : α) (v : β) :
    ∀ l : List (α × β), lookupKey k l = some v → (k, v) ∈ l := by
  intro l
  induction l with
  | nil => intro h; exact absurd h (by simp [lookupKey])
  | cons kv rest ih =>
    obtain ⟨k', v'⟩ := kv
    intro h
    by_cases hk : k' = k
    · subst hk
      simp [lookupKey] at h
      simp [h]
    · simp only [lookupKey, if_neg hk] at h
      exact List.mem_cons.mpr (Or.inr (ih h))

theorem mem_iff_lookupKey_of_nodup {α β : Type} [DecidableEq α] (k : α) (v : β) :
    ∀ l : List (α × β), (l.map Prod.fst).Nodup →
      ((k, v) ∈ l ↔ lookupKey k l = some v) := by
  intro l
  induction l with
  | nil => intro _; simp [lookupKey]
  | cons kv rest ih =>
    obtain ⟨k', v'⟩ := kv
    intro hnd
    simp only [List.map_cons, List.nodup_cons] at hnd
    by_cases hk : k' = k
    · subst hk
      constructor
      · intro hmem
        rcases List.mem_cons.mp hmem with heq | hmem
        · cases heq
          simp [lookupKey]
        · exact absurd (List.mem_map.mpr ⟨_, hmem, rfl⟩) hnd.1
      · intro hl
        simp [lookupKey] at hl
        simp [hl]
    · rw [List.mem_cons, ih hnd.2]
      simp only [lookupKey, if_neg hk]
      constructor
      · rintro (heq | hl)
        · injection heq with h1 h2
          exact absurd h1.symm hk
        · exact hl
      · intro hl
        exact Or.inr hl

/-! ### Realm (src/main.rs)

The Rust enum Realm with its matches operation. The Regex variant carries
the source string of the regular expression (the serde form, and the form
used for equality and hashing in the source); the regex engine itself is
the external regex crate, passed in as the matcher parameter rmatch. -/

inductive Realm
  | StartsWith (s : Str)
  | Regex (source : Str)
  | EndsWith (s : Str)
  | Contains (s : Str)
deriving DecidableEq, Repr

/-- Executable substring test, the embedding of Rust str::contains. -/
def isContainedIn (needle : Str) : Str → Bool
  | [] => needle.isEmpty
  | c :: rest => needle.isPrefixOf (c :: rest) || isContainedIn needle rest

/-- Realm.matches from src/main.rs: StartsWith checks a path head,
EndsWith a path tail, Regex defers to the regex crate (the parameter
rmatch), Contains checks for a substring. -/
def Realm.matches (rmatch : Str → Str → Bool) : Realm → Str → Bool
  | .StartsWith pattern, path => pattern.isPrefixOf path
  | .EndsWith ew, path => ew.isSuffixOf path
  | .Regex source, path => rmatch source path
  | .Contains cont, path => isContainedIn cont path

/-! ### NonEmptyList (src/non_empty_list.rs)

The push-only nonempty list. Only the total constructor new (None on an
empty input) and the list view matter for the claims. -/

structure NonEmptyList (α : Type) where
  toList : List α
  ne : toList ≠ []

/-- NonEmptyList.new from src/non_empty_list.rs: None iff the input list is
empty. -/
def NonEmptyList.new {α : Type} : List α → Option (NonEmptyList α)
  | [] => none
  | x :: xs => some ⟨x :: xs, by simp⟩

/-! ### Cache-control directives (src/cache_control/manager.rs) -/

inductive Directive
  | MaxAge (secs : Nat)
  | NoCache
  | MustRevalidate
  | NoStore
  | StaleWhileRevalidate
deriving DecidableEq, Repr

/-- The Display implementation for Directive. -/
def Directive.render : Directive → Str
  | .MaxAge secs => "max-age=".data ++ (Nat.repr secs).data
  | .NoCache => "no-cache".data
  | .MustRevalidate => "must-revalidate".data
  | .NoStore => "no-store".data
  | .StaleWhileRevalidate => "stale-while-revalidate".data

/-- One step of the accumulating loop in Directive::directives_to_header:
push a separator unless this is the first directive, then the rendering. -/
def Directive.headerStep (acc : Str × Bool) (d : Directive) : Str × Bool :=
  (acc.1 ++ (if acc.2 then [] else ", ".data) ++ d.render, false)

/-- Directive::directives_to_header from src/cache_control/manager.rs:
fold the nonempty directive list into a comma-separated header value. -/
def Directive.directivesToHeader (directives : NonEmptyList Directive) : Str :=
  (directives.toList.foldl Directive.headerStep ([], true)).1

/-! ### Caching (src/cache_control/manager.rs) -/

structure Caching where
  dflt : Option (NonEmptyList Directive)
  overrides : List (Realm × NonEmptyList Directive)

/-- Caching::get_cache_control_directives from src/cache_control/manager.rs:
collect the directives of every override whose realm matches the path; when
that collection is empty, extend it with the default list if one exists. -/
def Caching.getCacheControlDirectives (rmatch : Str → Str → Bool) (c : Caching)
    (path : Str) : List Directive :=
  let fromMap : List Directive :=
    (c.overrides.filter (fun ro => ro.1.matches rmatch path)).flatMap
      (fun ro => ro.2.toList)
  if fromMap.isEmpty then
    match c.dflt with
    | some dft => fromMap ++ dft.toList
    | none => fromMap
  else
    fromMap

/-- C7: For every path, get_directives returns the concatenation of the
directive lists of every override whose realm matches the path; if no
override matches and a default exists it returns the default list;
otherwise it returns the empty list. The code branches on emptiness of the
concatenated directive collection; the spec branches on whether any
override matched. The two agree because every stored directive list is
nonempty (NonEmptyList). -/
theorem c7_get_directives_characterisation (rmatch : Str → Str → Bool)
    (c : Caching) (path : Str) :
    Caching.getCacheControlDirectives rmatch c path =
      (match c.overrides.filter (fun ro => (ro.1).matches rmatch path) with
       | [] =>
         match c.dflt with
         | some dft => dft.toList
         | none => []
       | x :: xs => (x :: xs).flatMap (fun ro => ro.2.toList)) := by
  rcases hm : c.overrides.filter (fun ro => (ro.1).matches rmatch path) with
    _ | ⟨x, xs⟩
  · rcases hdf : c.dflt with _ | dft <;>
      simp [Caching.getCacheControlDirectives, hm, hdf]
  · have hne : ((x :: xs).flatMap (fun ro => ro.2.toList)).isEmpty = false := by
      rcases hx : x.2.toList with _ | ⟨d, ds⟩
      · exact absurd hx x.2.ne
      · simp [hx]
    simp [Caching.getCacheControlDirectives, hm, hne]
    intro hx
    exact absurd hx x.2.ne

/-! ### Response assembly (src/serve/pages.rs) -/

inductive Method
  | GET
  | HEAD
  | POST
deriving DecidableEq, Repr

/-- A hyper response: status, header list, body. -/
structure Rsp where
  status : Nat
  headers : List (Str × Str)
  body : Bytes
deriving DecidableEq

structure PageOutput where
  content : Bytes
  cacheControl : List Directive
  contentType : Str
  status : Nat
deriving DecidableEq

/-- PageOutput::into_response from src/serve/pages.rs: the response carries
Content-Type and Content-Length always, Cache-Control exactly when the
directive list is nonempty, and an empty body for HEAD requests. -/
def PageOutput.intoResponse (po : PageOutput) (reqMethod : Method) : Rsp :=
  { status := po.status
    headers :=
      [("content-type".data, po.contentType),
       ("content-length".data, (Nat.repr po.content.length).data)] ++
      (match NonEmptyList.new po.cacheControl with
       | some cc => [("cache-control".data, Directive.directivesToHeader cc)]
       | none => [])
    body := if reqMethod = Method.HEAD then [] else po.content }

theorem headerFold_false (l : List Directive) :
    ∀ s : Str, (l.foldl Directive.headerStep (s, false)).1 =
      s ++ l.flatMap (fun d => ", ".data ++ d.render) := by
  induction l with
  | nil => intro s; simp
  | cons d rest ih =>
    intro s
    simp only [List.foldl_cons, Directive.headerStep, if_neg Bool.false_ne_true]
    rw [ih]
    simp [List.append_assoc]

theorem intercalate_cons_eq_flatMap {α : Type} (sep : List α) (a : List α) :
    ∀ l : List (List α),
      List.intercalate sep (a :: l) = a ++ l.flatMap (fun s => sep ++ s) := by
  intro l
  induction l generalizing a with
  | nil => simp [List.intercalate]
  | cons b rest ih =>
    have : List.intercalate sep (a :: b :: rest) =
        a ++ sep ++ List.intercalate sep (b :: rest) := by
      simp [List.intercalate, List.intersperse]
    rw [this, ih b]
    simp [List.append_assoc]

/-- The accumulating loop of directives_to_header produces exactly the
comma-separated concatenation of the individual directive renderings. -/
theorem directivesToHeader_eq_intercalate (ds : NonEmptyList Directive) :
    Directive.directivesToHeader ds =
      List.intercalate ", ".data (ds.toList.map Directive.render) := by
  rcases hd : ds.toList with _ | ⟨d, rest⟩
  · exact absurd hd ds.ne
  · unfold Directive.directivesToHeader
    rw [hd]
    simp only [List.foldl_cons, Directive.headerStep]
    rw [headerFold_false]
    rw [List.map_cons, intercalate_cons_eq_flatMap, List.flatMap_map]
    simp

/-- C8: For every response assembled from a page, the Cache-Control header
is present iff the applicable directive list is nonempty, and when present
its value is the comma-separated rendering of the directives in order, with
no leading field name. The rendering of MaxAge n is max-age=n by the
definition of Directive.render. -/
theorem c8_cache_control_header (po : PageOutput) (m : Method) :
    lookupKey "cache-control".data (po.intoResponse m).headers =
      (if po.cacheControl = [] then none
       else
         some (List.intercalate ", ".data
           (po.cacheControl.map Directive.render))) := by
  have h1 : ("content-type".data = "cache-control".data) = False := by decide
  have h2 : ("content-length".data = "cache-control".data) = False := by decide
  rcases hcc : po.cacheControl with _ | ⟨d, rest⟩
  · simp [PageOutput.intoResponse, NonEmptyList.new, hcc, lookupKey, h1, h2]
  · have : Directive.directivesToHeader ⟨d :: rest, by simp⟩ =
        List.intercalate ", ".data ((d :: rest).map Directive.render) :=
      directivesToHeader_eq_intercalate ⟨d :: rest, by simp⟩
    simp [PageOutput.intoResponse, NonEmptyList.new, hcc, lookupKey, h1, h2,
      this]

/-! ### POST handling (src/serve/service.rs) -/

/-- Embedding of the Rust str operation that strips a leading pattern: the
remainder of the string after it, or none when the pattern does not lead. -/
def stripLeading (p s : Str) : Option Str :=
  if p.isPrefixOf s then some (s.drop p.length) else none

theorem isPrefixOf_append (p s : Str) : p.isPrefixOf (p ++ s) = true := by
  induction p with
  | nil => simp [List.isPrefixOf]
  | cons c cs ih => simp [List.isPrefixOf, ih]

/-- serve_post from src/serve/service.rs: webhook dispatch for POST
requests. reloadOk is the outcome of State::check_and_reload. The inner
re-check of the path against /reload is in the source (it is unreachable
there too). -/
def servePost (path : Str) (tigrisToken : Option Str)
    (authHeader : Option Str) (reloadOk : Bool) : Nat :=
  if path = "/reload".data then
    match tigrisToken with
    | none => 405
    | some actual =>
      if path ≠ "/reload".data then 404
      else
        match authHeader with
        | none => 400
        | some hv =>
          match stripLeading "Bearer ".data hv with
          | none => 400
          | some provided =>
            if actual ≠ provided then 403
            else if reloadOk then 200 else 500
  else 405

/-- C9: For every POST request: with no webhook token configured the
response is 405 regardless of path or headers; with a token configured,
POST to any path other than /reload is 405, POST /reload without an
Authorization header or without a Bearer prefix is 400, POST /reload with
a wrong Bearer token is 403, and POST /reload with the exact token runs
the reload and answers 200 on success and 500 on failure. -/
theorem c9_serve_post_statuses (path : Str) (tok hdr : Option Str)
    (r : Bool) :
    (servePost path none hdr r = 405) ∧
    (path ≠ "/reload".data → servePost path tok hdr r = 405) ∧
    (∀ t, servePost "/reload".data (some t) none r = 400) ∧
    (∀ t h, "Bearer ".data.isPrefixOf h = false →
      servePost "/reload".data (some t) (some h) r = 400) ∧
    (∀ t s, s ≠ t →
      servePost "/reload".data (some t) (some ("Bearer ".data ++ s)) r = 403) ∧
    (∀ t,
      servePost "/reload".data (some t) (some ("Bearer ".data ++ t)) true
        = 200) ∧
    (∀ t,
      servePost "/reload".data (some t) (some ("Bearer ".data ++ t)) false
        = 500) := by
  have hdrop : ∀ s : Str, ("Bearer ".data ++ s).drop ("Bearer ".data.length) = s :=
    fun s => List.drop_left _ _
  refine ⟨?_, ?_, ?_, ?_, ?_, ?_, ?_⟩
  · by_cases hp : path = "/reload".data <;> simp [servePost, hp]
  · intro hp
    rcases tok with _ | t <;> simp [servePost, hp]
  · intro t
    simp [servePost]
  · intro t h hpre
    simp [servePost, stripLeading, hpre]
  · intro t s hst
    simp [servePost, stripLeading, isPrefixOf_append, hdrop, Ne.symm hst]
  · intro t
    simp [servePost, stripLeading, isPrefixOf_append, hdrop]
  · intro t
    simp [servePost, stripLeading, isPrefixOf_append, hdrop]

/-- Witness for C9 at concrete inputs: token abc, header Bearer abc on the
success side and Bearer wrong on the failure side. -/
theorem c9_serve_post_statuses_witness :
    ("/other".data ≠ "/reload".data ∧
      servePost "/other".data (some "abc".data) none true = 405) ∧
    ("wrong".data ≠ "abc".data ∧
      servePost "/reload".data (some "abc".data)
        (some ("Bearer ".data ++ "wrong".data)) true = 403) ∧
    servePost "/reload".data (some "abc".data)
      (some ("Bearer ".data ++ "abc".data)) true = 200 :=
  ⟨⟨by decide,
      (c9_serve_post_statuses "/other".data (some "abc".data) none true).2.1
        (by decide)⟩,
    ⟨by decide,
      (c9_serve_post_statuses "/reload".data (some "abc".data)
          (some ("Bearer ".data ++ "wrong".data)) true).2.2.2.2.1 "abc".data
        "wrong".data (by decide)⟩,
    (c9_serve_post_statuses "/reload".data (some "abc".data)
        (some ("Bearer ".data ++ "abc".data)) true).2.2.2.2.2.1 "abc".data⟩

/-! ### Manifest delta (src/serve/pages.rs check_and_reload, identical loop
in src/serve/state.rs) -/

/-- The manifest: object-store path to content hash, plus the root prefix
(UploadData in src/main.rs; entries is a HashMap, embedded as an
association list with unique keys). -/
structure UploadData where
  entries : List (Str × Str)
  root : Str
deriving DecidableEq

/-- One iteration of the delta loop in check_and_reload over an old
manifest entry: an entry whose hash is unchanged leaves the update set
(HashSet remove, embedded as a duplicate-free filter); an entry absent
from the new manifest is pushed onto the removal list. -/
def deltaStep (new : List (Str × Str)) (acc : List Str × List Str)
    (kv : Str × Str) : List Str × List Str :=
  match lookupKey kv.1 new with
  | some newHash =>
    if kv.2 = newHash then (acc.1.filter (fun k => k ≠ kv.1), acc.2) else acc
  | none => (acc.1, acc.2 ++ [kv.1])

/-- The to_be_updated and to_be_removed sets computed by check_and_reload:
start from all keys of the new manifest and fold the delta loop over the
old entries. The background reload task fetches exactly the first
component from the object store. -/
def computeDelta (old new : List (Str × Str)) : List Str × List Str :=
  old.foldl (deltaStep new) (new.map Prod.fst, [])

theorem deltaFold_fst (new : List (Str × Str)) (k : Str) :
    ∀ (old : List (Str × Str)) (acc : List Str × List Str),
      (k ∈ (old.foldl (deltaStep new) acc).1 ↔
        k ∈ acc.1 ∧ ¬∃ h, (k, h) ∈ old ∧ lookupKey k new = some h) := by
  intro old
  induction old with
  | nil => intro acc; simp
  | cons kv rest ih =>
    obtain ⟨kk, kh⟩ := kv
    intro acc
    rw [List.foldl_cons, ih]
    rcases hl : lookupKey kk new with _ | nh
    · simp only [deltaStep, hl]
      constructor
      · rintro ⟨h1, h2⟩
        refine ⟨h1, ?_⟩
        rintro ⟨h, hmem, hsome⟩
        rcases List.mem_cons.mp hmem with heq | hmem
        · injection heq with e1 e2
          rw [e1] at hsome
          rw [hsome] at hl
          exact Option.noConfusion hl
        · exact h2 ⟨h, hmem, hsome⟩
      · rintro ⟨h1, h2⟩
        exact ⟨h1, fun ⟨h, hmem, hsome⟩ =>
          h2 ⟨h, List.mem_cons.mpr (Or.inr hmem), hsome⟩⟩
    · by_cases hne : kh = nh
      · simp only [deltaStep, hl, if_pos hne]
        have hmf : k ∈ acc.1.filter (fun k => k ≠ kk) ↔
            k ∈ acc.1 ∧ k ≠ kk := by
          simp [List.mem_filter]
        rw [hmf]
        constructor
        · rintro ⟨⟨h1, hk⟩, h2⟩
          refine ⟨h1, ?_⟩
          rintro ⟨h, hmem, hsome⟩
          rcases List.mem_cons.mp hmem with heq | hmem
          · injection heq with e1 e2
            exact hk e1
          · exact h2 ⟨h, hmem, hsome⟩
        · rintro ⟨h1, h2⟩
          by_cases hk : k = kk
          · exfalso
            apply h2
            refine ⟨kh, List.mem_cons.mpr (Or.inl ?_), ?_⟩
            · rw [hk]
            · rw [hk, hl, hne]
          · exact ⟨⟨h1, hk⟩, fun ⟨h, hmem, hsome⟩ =>
              h2 ⟨h, List.mem_cons.mpr (Or.inr hmem), hsome⟩⟩
      · simp only [deltaStep, hl, if_neg hne]
        constructor
        · rintro ⟨h1, h2⟩
          refine ⟨h1, ?_⟩
          rintro ⟨h, hmem, hsome⟩
          rcases List.mem_cons.mp hmem with heq | hmem
          · injection heq with e1 e2
            rw [e1] at hsome
            rw [hsome] at hl
            injection hl with e3
            exact hne (e2 ▸ e3)
          · exact h2 ⟨h, hmem, hsome⟩
        · rintro ⟨h1, h2⟩
          exact ⟨h1, fun ⟨h, hmem, hsome⟩ =>
            h2 ⟨h, List.mem_cons.mpr (Or.inr hmem), hsome⟩⟩

theorem deltaFold_snd (new : List (Str × Str)) (k : Str) :
    ∀ (old : List (Str × Str)) (acc : List Str × List Str),
      (k ∈ (old.foldl (deltaStep new) acc).2 ↔
        k ∈ acc.2 ∨ (k ∈ old.map Prod.fst ∧ lookupKey k new = none)) := by
  intro old
  induction old with
  | nil => intro acc; simp
  | cons kv rest ih =>
    intro acc
    rw [List.foldl_cons, ih]
    rcases hl : lookupKey kv.1 new with _ | nh
    · simp only [deltaStep, hl, List.map_cons, List.mem_cons]
      constructor
      · rintro (hmem | ⟨hmem, hnone⟩)
        · rcases List.mem_append.mp hmem with hmem | hmem
          · exact Or.inl hmem
          · have hk : k = kv.1 := by simpa using hmem
            exact Or.inr ⟨Or.inl hk, hk ▸ hl⟩
        · exact Or.inr ⟨Or.inr hmem, hnone⟩
      · rintro (hmem | ⟨hk | hmem, hnone⟩)
        · exact Or.inl (List.mem_append.mpr (Or.inl hmem))
        · exact Or.inl (List.mem_append.mpr (Or.inr (by simp [hk])))
        · exact Or.inr ⟨hmem, hnone⟩
    · have hstep : (deltaStep new acc kv).2 = acc.2 := by
        simp only [deltaStep, hl]
        by_cases hne : kv.2 = nh <;> simp [hne]
      rw [hstep]
      simp only [List.map_cons, List.mem_cons]
      constructor
      · rintro (hmem | ⟨hmem, hnone⟩)
        · exact Or.inl hmem
        · exact Or.inr ⟨Or.inr hmem, hnone⟩
      · rintro (hmem | ⟨hk | hmem, hnone⟩)
        · exact Or.inl hmem
        · exfalso
          rw [hk, hl] at hnone
          exact Option.noConfusion hnone
        · exact Or.inr ⟨hmem, hnone⟩

/-- C1: For every pair of manifests, the reload computes the removal set
as exactly the keys of the old manifest absent from the new one, and the
update set as exactly the keys of the new manifest whose hash in the old
manifest is absent or different; keys with unchanged hashes are not in the
update set, and the background task fetches exactly the update set, so
unchanged entries generate no object-store reads. -/
theorem c1_delta_sets (old new : List (Str × Str))
    (hold : (old.map Prod.fst).Nodup) :
    (∀ k, k ∈ (computeDelta old new).2 ↔
        k ∈ old.map Prod.fst ∧ k ∉ new.map Prod.fst) ∧
    (∀ k, k ∈ (computeDelta old new).1 ↔
        k ∈ new.map Prod.fst ∧ lookupKey k old ≠ lookupKey k new) ∧
    (∀ k, lookupKey k old = lookupKey k new →
        k ∉ (computeDelta old new).1) := by
  have hfst : ∀ k, k ∈ (computeDelta old new).1 ↔
      k ∈ new.map Prod.fst ∧ lookupKey k old ≠ lookupKey k new := by
    intro k
    rw [computeDelta, deltaFold_fst]
    constructor
    · rintro ⟨hmem, hno⟩
      refine ⟨hmem, ?_⟩
      intro heq
      obtain ⟨v, hv⟩ := (lookupKey_isSome k new).mpr hmem
      exact hno ⟨v, lookupKey_mem k v old (heq.trans hv), hv⟩
    · rintro ⟨hmem, hne⟩
      refine ⟨hmem, ?_⟩
      rintro ⟨h, hmemold, hsome⟩
      exact hne (((mem_iff_lookupKey_of_nodup k h old hold).mp hmemold).trans
        hsome.symm)
  refine ⟨?_, hfst, ?_⟩
  · intro k
    rw [computeDelta, deltaFold_snd]
    rw [lookupKey_eq_none]
    simp
  · intro k heq hmem
    exact ((hfst k).mp hmem).2 heq

/-- Witness for C1 on concrete manifests: old has keys a and c, new has
keys a (unchanged hash) and b; the removal set test is instantiated at
key c. -/
theorem c1_delta_sets_witness :
    (['c'] ∈ (computeDelta [(['a'], ['1']), (['c'], ['3'])]
        [(['a'], ['1']), (['b'], ['2'])]).2 ↔
      (['c'] ∈ [(['a'], ['1']), (['c'], ['3'])].map
          (Prod.fst (α := Str) (β := Str)) ∧
        ['c'] ∉ [(['a'], ['1']), (['b'], ['2'])].map
          (Prod.fst (α := Str) (β := Str)))) :=
  (c1_delta_sets [(['a'], ['1']), (['c'], ['3'])]
    [(['a'], ['1']), (['b'], ['2'])] (by decide)).1 ['c']

/-! ### Pages state and reload (src/serve/pages.rs)

The in-memory serving state of Pages: the manifest behind its RwLock, the
recorded manifest digest behind its Mutex (which doubles as the reload
guard), and the page cache. External effects are inputs: lockFree is the
try_lock outcome, fetched an object-store result, hashBytes the SHA-256
digest from the sha2 crate, parse the serde_json deserializer. -/

structure PagesSt where
  uploadData : UploadData
  lastUploadHash : Bytes
  cache : List (Str × (Bytes × Str))
deriving DecidableEq

inductive ReloadOutcome
  | busy
  | fetchFailed
  | unchanged
  | parseFailed
  | reloaded (toBeUpdated : List Str) (toBeRemoved : List Str)
deriving DecidableEq, Repr

/-- Pages::check_and_reload from src/serve/pages.rs. On the reload path the
source swaps the manifest, invalidates the removed cache entries and spawns
a task fetching the update set; the reloaded outcome carries that fetch
set. The source takes the last_upload_hash guard and compares it but never
writes it, so the embedded transition keeps lastUploadHash unchanged on
every path. -/
def Pages.checkAndReload (hashBytes : Bytes → Bytes)
    (parse : Bytes → Option UploadData) (s : PagesSt) (lockFree : Bool)
    (fetched : Option Bytes) : ReloadOutcome × PagesSt :=
  if !lockFree then (.busy, s)
  else
    match fetched with
    | none => (.fetchFailed, s)
    | some bytes =>
      let hash := hashBytes bytes
      if s.lastUploadHash = hash then (.unchanged, s)
      else
        match parse bytes with
        | none => (.parseFailed, s)
        | some newUploadData =>
          let delta := computeDelta s.uploadData.entries newUploadData.entries
          (.reloaded delta.1 delta.2,
            { uploadData := newUploadData
              lastUploadHash := s.lastUploadHash
              cache := s.cache.filter (fun kv => !(delta.2.contains kv.1)) })

/-- The cache-control manager state: recorded digest and live catalog
(src/cache_control/manager.rs). -/
structure CCMSt where
  lastHash : Bytes
  current : Caching

inductive CCMOutcome
  | busy
  | fetchFailed
  | emptyBytes
  | unchanged
  | parseFailed
  | reloaded
deriving DecidableEq, Repr

/-- CacheControlManager::check_and_reload from
src/cache_control/manager.rs. Empty raw bytes (the 404 default of
get_bytes_or_default) return early; an unchanged digest returns early; a
change records the new digest and then parses and installs the new
catalog. -/
def CacheControlManager.checkAndReload (hashBytes : Bytes → Bytes)
    (parse : Bytes → Option Caching) (s : CCMSt) (lockFree : Bool)
    (fetched : Option Bytes) : CCMOutcome × CCMSt :=
  if !lockFree then (.busy, s)
  else
    match fetched with
    | none => (.fetchFailed, s)
    | some raw =>
      if raw.isEmpty then (.emptyBytes, s)
      else
        let newHash := hashBytes raw
        if s.lastHash = newHash then (.unchanged, s)
        else
          match parse raw with
          | none => (.parseFailed, { s with lastHash := newHash })
          | some newVersion => (.reloaded, ⟨newHash, newVersion⟩)

/-- Pages::get from src/serve/pages.rs (State::get in src/serve/state.rs
shares the same logic). fetched is the outcome of the read-through
object-store fetch for the resolved path: bytes and content type on
success, none on any fetch error. On fetch error the source removes the
entry from the in-memory upload data and serves the 404 fallback. -/
def Pages.get (rmatch : Str → Str → Bool) (s : PagesSt) (ccm : Caching)
    (path : Str) (fetched : Option (Bytes × Str)) :
    Option PageOutput × PagesSt :=
  let root := s.uploadData.root
  let cachePath := root ++ path
  let notFound : Option PageOutput :=
    match lookupKey (root ++ "/404.html".data) s.cache with
    | some cc => some ⟨cc.1, [Directive.MaxAge 604800], cc.2, 404⟩
    | none => none
  match lookupKey cachePath s.cache with
  | some cc =>
    (some ⟨cc.1, Caching.getCacheControlDirectives rmatch ccm path, cc.2,
      200⟩, s)
  | none =>
    match lookupKey cachePath s.uploadData.entries with
    | some _hash =>
      match fetched with
      | some bc =>
        (some ⟨bc.1, Caching.getCacheControlDirectives rmatch ccm path, bc.2,
          200⟩,
          { s with cache := insertKey cachePath bc s.cache })
      | none =>
        (notFound,
          { s with uploadData :=
              { entries := removeKey cachePath s.uploadData.entries
                root := s.uploadData.root } })
    | none => (notFound, s)

theorem lookupKey_removeKey {β : Type} (k : Str) (l : List (Str × β)) :
    lookupKey k (removeKey k l) = none := by
  induction l with
  | nil => simp [removeKey, lookupKey]
  | cons kv rest ih =>
    obtain ⟨k', v⟩ := kv
    by_cases h : k' = k
    · simpa [removeKey, h] using ih
    · simpa [removeKey, lookupKey, h] using ih

/-- When the digest of the freshly fetched manifest bytes equals the
recorded digest, Pages::check_and_reload returns without changing any
state. -/
theorem pages_checkAndReload_unchanged (hashBytes : Bytes → Bytes)
    (parse : Bytes → Option UploadData) (s : PagesSt) (bytes : Bytes)
    (heq : s.lastUploadHash = hashBytes bytes) :
    Pages.checkAndReload hashBytes parse s true (some bytes) =
      (ReloadOutcome.unchanged, s) := by
  simp [Pages.checkAndReload, heq]

/-- When the digest of the freshly fetched cache-control bytes equals the
recorded digest, CacheControlManager::check_and_reload returns without
changing any state. -/
theorem ccm_checkAndReload_unchanged (hashBytes : Bytes → Bytes)
    (parse : Bytes → Option Caching) (s : CCMSt) (raw : Bytes)
    (hne : raw.isEmpty = false) (heq : s.lastHash = hashBytes raw) :
    CacheControlManager.checkAndReload hashBytes parse s true (some raw) =
      (CCMOutcome.unchanged, s) := by
  simp [CacheControlManager.checkAndReload, hne, heq]

/-- When CacheControlManager::check_and_reload installs a new catalog, the
recorded digest afterwards is the digest of the new raw bytes. -/
theorem ccm_checkAndReload_digest_updated (hashBytes : Bytes → Bytes)
    (parse : Bytes → Option Caching) (s : CCMSt) (raw : Bytes)
    (res : CCMOutcome × CCMSt)
    (hrun : CacheControlManager.checkAndReload hashBytes parse s true
      (some raw) = res)
    (hrel : res.1 = CCMOutcome.reloaded) :
    res.2.lastHash = hashBytes raw := by
  subst hrun
  by_cases hne : raw.isEmpty
  · simp [CacheControlManager.checkAndReload, hne] at hrel
  · by_cases heq : s.lastHash = hashBytes raw
    · simp [CacheControlManager.checkAndReload, hne, heq] at hrel
    · rcases hp : parse raw with _ | c
      · simp [CacheControlManager.checkAndReload, hne, heq, hp] at hrel
      · simp [CacheControlManager.checkAndReload, hne, heq, hp]

/-- C2 (code bug demonstration): Pages::check_and_reload never writes
last_upload_hash. Starting from recorded digest 0x00 and manifest bytes
0x01 (with the digest parameter instantiated to the identity and the
parser returning a one-entry manifest), the reload installs the new
catalog yet leaves the recorded digest at 0x00, and an immediately
following check with the very same bytes reloads again (with an empty
delta) instead of being a no-op. -/
theorem c2_pages_stale_digest :
    (Pages.checkAndReload id
        (fun _ => some ⟨[(['a'], ['1'])], ['r']⟩)
        ⟨⟨[], []⟩, [0], []⟩ true (some [1])).1 =
      ReloadOutcome.reloaded [['a']] [] ∧
    (Pages.checkAndReload id
        (fun _ => some ⟨[(['a'], ['1'])], ['r']⟩)
        ⟨⟨[], []⟩, [0], []⟩ true (some [1])).2 =
      ⟨⟨[(['a'], ['1'])], ['r']⟩, [0], []⟩ ∧
    (Pages.checkAndReload id
        (fun _ => some ⟨[(['a'], ['1'])], ['r']⟩)
        ⟨⟨[(['a'], ['1'])], ['r']⟩, [0], []⟩ true (some [1])).1 =
      ReloadOutcome.reloaded [] [] := by
  refine ⟨?_, ?_, ?_⟩ <;> rfl

/-- C10: Every 404 fallback response produced by the page lookup carries
the fixed directive list MaxAge 604800; the cache-control store is not
consulted for 404 responses, so replacing the cache-control catalog with
any other changes neither the 404 output nor the resulting state. -/
theorem c10_fallback_fixed_cache_control (rmatch : Str → Str → Bool)
    (s : PagesSt) (ccm ccm2 : Caching) (path : Str)
    (fetched : Option (Bytes × Str)) (po : PageOutput)
    (hpo : (Pages.get rmatch s ccm path fetched).1 = some po)
    (hst : po.status = 404) :
    po.cacheControl = [Directive.MaxAge 604800] ∧
    (Pages.get rmatch s ccm2 path fetched).1 = some po ∧
    (Pages.get rmatch s ccm2 path fetched).2 =
      (Pages.get rmatch s ccm path fetched).2 := by
  rcases hhit : lookupKey (s.uploadData.root ++ path) s.cache with _ | cc
  · rcases hent : lookupKey (s.uploadData.root ++ path)
        s.uploadData.entries with _ | eh
    · rcases h404 : lookupKey (s.uploadData.root ++ "/404.html".data)
          s.cache with _ | cc4
      · simp [Pages.get, hhit, hent, h404] at hpo
      · simp [Pages.get, hhit, hent, h404] at hpo
        subst hpo
        refine ⟨rfl, ?_, ?_⟩ <;> simp [Pages.get, hhit, hent, h404]
    · rcases fetched with _ | bc
      · rcases h404 : lookupKey (s.uploadData.root ++ "/404.html".data)
            s.cache with _ | cc4
        · simp [Pages.get, hhit, hent, h404] at hpo
        · simp [Pages.get, hhit, hent, h404] at hpo
          subst hpo
          refine ⟨rfl, ?_, ?_⟩ <;> simp [Pages.get, hhit, hent, h404]
      · simp [Pages.get, hhit, hent] at hpo
        subst hpo
        simp at hst
  · simp [Pages.get, hhit] at hpo
    subst hpo
    simp at hst

/-- Witness for C10: a concrete state whose cache holds only the 404 page,
checked against two different cache-control catalogs (one with a default
directive list, one empty). -/
theorem c10_fallback_fixed_cache_control_witness :
    ((Pages.get (fun _ _ => false)
        ⟨⟨[], ['r']⟩, [], [("r/404.html".data, ([7], "text/html".data))]⟩
        ⟨some ⟨[Directive.NoCache], by simp⟩, []⟩ "/x".data none).1 =
      some ⟨[7], [Directive.MaxAge 604800], "text/html".data, 404⟩ ∧
     (⟨[7], [Directive.MaxAge 604800], "text/html".data, 404⟩ :
        PageOutput).status = 404) ∧
    ((⟨[7], [Directive.MaxAge 604800], "text/html".data, 404⟩ :
        PageOutput).cacheControl = [Directive.MaxAge 604800] ∧
     (Pages.get (fun _ _ => false)
        ⟨⟨[], ['r']⟩, [], [("r/404.html".data, ([7], "text/html".data))]⟩
        ⟨none, []⟩ "/x".data none).1 =
      some ⟨[7], [Directive.MaxAge 604800], "text/html".data, 404⟩ ∧
     (Pages.get (fun _ _ => false)
        ⟨⟨[], ['r']⟩, [], [("r/404.html".data, ([7], "text/html".data))]⟩
        ⟨none, []⟩ "/x".data none).2 =
      (Pages.get (fun _ _ => false)
        ⟨⟨[], ['r']⟩, [], [("r/404.html".data, ([7], "text/html".data))]⟩
        ⟨some ⟨[Directive.NoCache], by simp⟩, []⟩ "/x".data none).2) :=
  ⟨⟨by decide, by decide⟩,
    c10_fallback_fixed_cache_control (fun _ _ => false)
      ⟨⟨[], ['r']⟩, [], [("r/404.html".data, ([7], "text/html".data))]⟩
      ⟨some ⟨[Directive.NoCache], by simp⟩, []⟩ ⟨none, []⟩ "/x".data none
      ⟨[7], [Directive.MaxAge 604800], "text/html".data, 404⟩
      (by decide) (by decide)⟩

/-- C6 is false as stated: on a per-entry fetch failure during request
read-through the source does not leave the serving state unchanged — it
removes the entry from the in-memory upload data (and logs exactly that),
so a subsequent request for the same path is answered from the 404
fallback without re-attempting the object store. Concretely: a manifest
with entry r/p, a cold cache holding only the 404 page, and a failed
fetch; the follow-up request offers a successful fetch and still gets the
404 fallback. -/
theorem c6_skip_only_counterexample :
    (Pages.get (fun _ _ => false)
        ⟨⟨[("r/p".data, ['h'])], ['r']⟩, [],
          [("r/404.html".data, ([7], "text/html".data))]⟩
        ⟨none, []⟩ "/p".data none).1 =
      some ⟨[7], [Directive.MaxAge 604800], "text/html".data, 404⟩ ∧
    (Pages.get (fun _ _ => false)
        ⟨⟨[("r/p".data, ['h'])], ['r']⟩, [],
          [("r/404.html".data, ([7], "text/html".data))]⟩
        ⟨none, []⟩ "/p".data none).2.uploadData.entries = [] ∧
    (Pages.get (fun _ _ => false)
        ⟨⟨[], ['r']⟩, [],
          [("r/404.html".data, ([7], "text/html".data))]⟩
        ⟨none, []⟩ "/p".data (some ([9], "text/html".data))).1 =
      some ⟨[7], [Directive.MaxAge 604800], "text/html".data, 404⟩ := by
  refine ⟨?_, ?_, ?_⟩ <;> decide

/-- C6 (amended): when the read-through fetch for a manifest entry fails,
the client gets the 404 fallback and the entry is removed from the
in-memory upload data; every subsequent request for the same path is then
served the 404 fallback directly — whatever the object store would answer
— until a reload restores the entry. -/
theorem c6_fetch_failure_removes_entry (rmatch : Str → Str → Bool)
    (s : PagesSt) (ccm : Caching) (path : Str) (eh : Str)
    (hmiss : lookupKey (s.uploadData.root ++ path) s.cache = none)
    (hent : lookupKey (s.uploadData.root ++ path) s.uploadData.entries =
      some eh) :
    (Pages.get rmatch s ccm path none).1 =
      (match lookupKey (s.uploadData.root ++ "/404.html".data) s.cache with
       | some cc => some ⟨cc.1, [Directive.MaxAge 604800], cc.2, 404⟩
       | none => none) ∧
    (Pages.get rmatch s ccm path none).2 =
      ⟨⟨removeKey (s.uploadData.root ++ path) s.uploadData.entries,
        s.uploadData.root⟩, s.lastUploadHash, s.cache⟩ ∧
    (∀ fetched2,
      Pages.get rmatch (Pages.get rmatch s ccm path none).2 ccm path
        fetched2 = Pages.get rmatch s ccm path none) := by
  refine ⟨?_, ?_, ?_⟩
  · simp [Pages.get, hmiss, hent]
  · simp [Pages.get, hmiss, hent]
  · intro fetched2
    simp [Pages.get, hmiss, hent, lookupKey_removeKey]

/-- Witness for C6 (amended) at the concrete failing input. -/
theorem c6_fetch_failure_removes_entry_witness :
    (Pages.get (fun _ _ => false)
        ⟨⟨[("r/p".data, ['h'])], ['r']⟩, [],
          [("r/404.html".data, ([7], "text/html".data))]⟩
        ⟨none, []⟩ "/p".data none).1 =
      (match lookupKey (("r".data : Str) ++ "/404.html".data)
          [("r/404.html".data, (([7] : Bytes), "text/html".data))] with
       | some cc => some ⟨cc.1, [Directive.MaxAge 604800], cc.2, 404⟩
       | none => none) ∧
    (Pages.get (fun _ _ => false)
        ⟨⟨[("r/p".data, ['h'])], ['r']⟩, [],
          [("r/404.html".data, ([7], "text/html".data))]⟩
        ⟨none, []⟩ "/p".data none).2 =
      ⟨⟨removeKey (("r".data : Str) ++ "/p".data)
          [("r/p".data, ['h'])], "r".data⟩, [],
        [("r/404.html".data, ([7], "text/html".data))]⟩ ∧
    (∀ fetched2,
      Pages.get (fun _ _ => false)
        (Pages.get (fun _ _ => false)
          ⟨⟨[("r/p".data, ['h'])], ['r']⟩, [],
            [("r/404.html".data, ([7], "text/html".data))]⟩
          ⟨none, []⟩ "/p".data none).2 ⟨none, []⟩ "/p".data fetched2 =
      Pages.get (fun _ _ => false)
        ⟨⟨[("r/p".data, ['h'])], ['r']⟩, [],
          [("r/404.html".data, ([7], "text/html".data))]⟩
        ⟨none, []⟩ "/p".data none) :=
  c6_fetch_failure_removes_entry (fun _ _ => false)
    ⟨⟨[("r/p".data, ['h'])], ['r']⟩, [],
      [("r/404.html".data, ([7], "text/html".data))]⟩
    ⟨none, []⟩ "/p".data ['h'] (by decide) (by decide)

/-! ### Access policy (src/protect/auth_storer.rs and src/protect/auth.rs)

Uuids are abstract unique ids; Nat suffices for the embedding. AuthStorer
keys realms by Realm; the serving-side AuthChecker in src/protect/auth.rs
keys realms by plain string patterns matched via starts_with. -/

abbrev Uuid := Nat

structure UsernameAndPassword where
  username : Str
  storedKey : Str
deriving DecidableEq, Repr

structure AuthStorer where
  realms : List (Realm × List Uuid)
  users : List (Uuid × UsernameAndPassword)
deriving DecidableEq

structure AuthChecker where
  authUsers : List (Uuid × UsernameAndPassword)
  authRealms : List (Str × List Uuid)
deriving DecidableEq

/-- AuthStorer::rm_user from src/protect/auth_storer.rs: retain in every
realm the uuids different from the removed user, then remove the user from
the user map. Empty realm entries are left in place. -/
def AuthStorer.rmUser (s : AuthStorer) (user : Uuid) : AuthStorer :=
  { realms := s.realms.map
      (fun rl => (rl.1, rl.2.filter (fun uuid => uuid ≠ user)))
    users := removeKey user s.users }

/-- AuthChecker::rm_user from src/protect/auth.rs: the same cascade over
the string-keyed realm map. -/
def AuthChecker.rmUser (c : AuthChecker) (user : Uuid) : AuthChecker :=
  { authRealms := c.authRealms.map
      (fun rl => (rl.1, rl.2.filter (fun uuid => uuid ≠ user)))
    authUsers := removeKey user c.authUsers }

/-- AuthStorer::find_users_with_access from src/protect/auth_storer.rs:
None iff no realm matches the path; otherwise the username-to-credential
table of the first matching realm. -/
def AuthStorer.findUsersWithAccess (rmatch : Str → Str → Bool)
    (s : AuthStorer) (path : Str) : Option (List (Str × Str)) :=
  match s.realms.find? (fun pr => (pr.1).matches rmatch path) with
  | none => none
  | some pr =>
    some (pr.2.filterMap (fun uuid =>
      (lookupKey uuid s.users).map (fun uap => (uap.username, uap.storedKey))))

/-- C3 is false in its second half: removing the only user of a realm
leaves that realm stored with an empty user set. -/
theorem c3_empty_realm_counterexample :
    (AuthStorer.rmUser
        ⟨[(Realm.StartsWith "/a".data, [7])],
          [(7, ⟨"alice".data, "k".data⟩)]⟩ 7).realms =
      [(Realm.StartsWith "/a".data, [])] ∧
    ((AuthStorer.rmUser
        ⟨[(Realm.StartsWith "/a".data, [7])],
          [(7, ⟨"alice".data, "k".data⟩)]⟩ 7).realms.any
      (fun rl => rl.2.isEmpty)) = true := by
  refine ⟨?_, ?_⟩ <;> decide

/-- C3 (amended): after rm_user no realm contains the removed id and the
id is gone from the user map, but the set of stored realms is unchanged —
a realm whose user set becomes empty stays stored with that empty set.
This holds for both rm_user implementations. -/
theorem c3_rm_user_amended (s : AuthStorer) (c : AuthChecker) (user : Uuid) :
    ((s.rmUser user).realms.map Prod.fst = s.realms.map Prod.fst) ∧
    (∀ rl, rl ∈ (s.rmUser user).realms → user ∉ rl.2) ∧
    (∀ p, p ∈ (s.rmUser user).users → p.1 ≠ user) ∧
    ((c.rmUser user).authRealms.map Prod.fst = c.authRealms.map Prod.fst) ∧
    (∀ rl, rl ∈ (c.rmUser user).authRealms → user ∉ rl.2) := by
  refine ⟨?_, ?_, ?_, ?_, ?_⟩
  · rw [AuthStorer.rmUser, List.map_map]
    rfl
  · intro rl hmem
    obtain ⟨rl0, hmem0, rfl⟩ := List.mem_map.mp hmem
    simp [List.mem_filter]
  · intro p hmem
    simp only [AuthStorer.rmUser, removeKey, List.mem_filter] at hmem
    simpa using hmem.2
  · rw [AuthChecker.rmUser, List.map_map]
    rfl
  · intro rl hmem
    obtain ⟨rl0, hmem0, rfl⟩ := List.mem_map.mp hmem
    simp [List.mem_filter]

/-- Witness for C3 (amended): the concrete one-user one-realm policy. -/
theorem c3_rm_user_amended_witness :
    ((AuthStorer.rmUser
        ⟨[(Realm.StartsWith "/a".data, [7])],
          [(7, ⟨"alice".data, "k".data⟩)]⟩ 7).realms.map Prod.fst =
      [(Realm.StartsWith "/a".data, [7])].map Prod.fst) ∧
    (7 : Uuid) ∉ ((Realm.StartsWith "/a".data, ([] : List Uuid))).2 :=
  ⟨(c3_rm_user_amended
      ⟨[(Realm.StartsWith "/a".data, [7])],
        [(7, ⟨"alice".data, "k".data⟩)]⟩ ⟨[], []⟩ 7).1,
    (c3_rm_user_amended
      ⟨[(Realm.StartsWith "/a".data, [7])],
        [(7, ⟨"alice".data, "k".data⟩)]⟩ ⟨[], []⟩ 7).2.1
      (Realm.StartsWith "/a".data, []) (by decide)⟩

/-! ### Authorization pipeline (src/protect/auth.rs check_auth)

External pieces passed as parameters: verify is Argon2 verify_password
(password bytes against a stored PHC string), b64decode the base64 crate
standard decoder, utf8decode String::from_utf8, hashParses the success of
PasswordHash::new, fakePasswordHash the lazily precomputed hash of the
fake password. rateLimitOk is the rate limiter decision for the remote
address. The returned list records every (password, hash) pair handed to
the Argon2 verifier, making verifier invocations observable. The 401
challenge response carries the path (the source formats it into the
WWW-Authenticate Basic realm challenge); other responses carry none. -/

inductive VerifyOutcome
  | ok
  | mismatch
  | err
deriving DecidableEq, Repr

inductive AuthReturn
  | AuthConfirmed
  | ResponseFromAuth (status : Nat) (wwwAuthenticate : Option Str)
deriving DecidableEq, Repr

/-- The index of the last occurrence of a character, the embedding of Rust
str::rfind. -/
def lastIndexOf (c : Char) : Str → Option Nat
  | [] => none
  | x :: xs =>
    match lastIndexOf c xs with
    | some i => some (i + 1)
    | none => if x = c then some 0 else none

/-- AuthChecker::check_auth from src/protect/auth.rs. -/
def AuthChecker.checkAuth (verify : Str → Str → VerifyOutcome)
    (b64decode : Str → Option Bytes) (utf8decode : Bytes → Option Str)
    (hashParses : Str → Bool) (fakePasswordHash : Str) (c : AuthChecker)
    (path : Str) (rateLimitOk : Bool) (authHeader : Option Str) :
    AuthReturn × List (Str × Str) :=
  match c.authRealms.find? (fun pr => (pr.1).isPrefixOf path) with
  | none => (.AuthConfirmed, [])
  | some pr =>
    let users := pr.2.filterMap (fun uuid => lookupKey uuid c.authUsers)
    if !rateLimitOk then (.ResponseFromAuth 429 none, [])
    else
      match authHeader with
      | none => (.ResponseFromAuth 401 (some path), [])
      | some hv =>
        match stripLeading "Basic ".data hv with
        | none => (.ResponseFromAuth 401 none, [])
        | some b64 =>
          match b64decode b64 with
          | none => (.ResponseFromAuth 400 none, [])
          | some decodedBytes =>
            match utf8decode decodedBytes with
            | none => (.ResponseFromAuth 400 none, [])
            | some decoded =>
              match lastIndexOf ':' decoded with
              | none => (.ResponseFromAuth 400 none, [])
              | some colonIndex =>
                let providedUsername := decoded.take colonIndex
                let providedPassword := (decoded.drop colonIndex).drop 1
                match users.find?
                    (fun x => x.username = providedUsername) with
                | none =>
                  if hashParses fakePasswordHash then
                    (.ResponseFromAuth 401 none,
                      [(providedPassword, fakePasswordHash)])
                  else (.ResponseFromAuth 500 none, [])
                | some uap =>
                  if hashParses uap.storedKey then
                    match verify providedPassword uap.storedKey with
                    | .ok =>
                      (.AuthConfirmed, [(providedPassword, uap.storedKey)])
                    | .mismatch =>
                      (.ResponseFromAuth 401 none,
                        [(providedPassword, uap.storedKey)])
                    | .err =>
                      (.ResponseFromAuth 500 none,
                        [(providedPassword, uap.storedKey)])
                  else (.ResponseFromAuth 500 none, [])

/-- C4: If no realm matches the path the authorization step returns
AuthConfirmed with no verifier call for every value of the Authorization
header — so two requests differing only in that header get the same
outcome — and find_users_with_access returns None exactly when no realm
matches. -/
theorem c4_public_path_bypass (verify : Str → Str → VerifyOutcome)
    (b64decode : Str → Option Bytes) (utf8decode : Bytes → Option Str)
    (hashParses : Str → Bool) (fakePasswordHash : Str)
    (rmatch : Str → Str → Bool) (c : AuthChecker) (path : Str)
    (hnone : c.authRealms.find? (fun pr => (pr.1).isPrefixOf path) = none) :
    (∀ (rateLimitOk : Bool) (authHeader : Option Str),
      AuthChecker.checkAuth verify b64decode utf8decode hashParses
          fakePasswordHash c path rateLimitOk authHeader =
        (AuthReturn.AuthConfirmed, [])) ∧
    (∀ (st : AuthStorer) (p : Str),
      st.findUsersWithAccess rmatch p = none ↔
        ∀ rl ∈ st.realms, (rl.1).matches rmatch p = false) := by
  constructor
  · intro rateLimitOk authHeader
    simp [AuthChecker.checkAuth, hnone]
  · intro st p
    rcases hf : st.realms.find? (fun pr => (pr.1).matches rmatch p) with
      _ | pr
    · constructor
      · intro _ rl hmem
        simpa using List.find?_eq_none.mp hf rl hmem
      · intro _
        simp [AuthStorer.findUsersWithAccess, hf]
    · constructor
      · intro hl
        exfalso
        simp [AuthStorer.findUsersWithAccess, hf] at hl
      · intro hall
        exfalso
        have hp := List.find?_some hf
        have := hall pr (List.mem_of_find?_eq_some hf)
        rw [this] at hp
        exact Bool.noConfusion hp

/-- Witness for C4: one protected realm /admin, a request for /pub with
two different Authorization headers, both confirmed untouched. -/
theorem c4_public_path_bypass_witness :
    AuthChecker.checkAuth (fun _ _ => VerifyOutcome.mismatch)
        (fun _ => none) (fun _ => none) (fun _ => true) "f".data
        ⟨[(1, ⟨"alice".data, "k".data⟩)], [("/admin".data, [1])]⟩
        "/pub".data true (some "Basic Zm9v".data) =
      (AuthReturn.AuthConfirmed, []) ∧
    AuthChecker.checkAuth (fun _ _ => VerifyOutcome.mismatch)
        (fun _ => none) (fun _ => none) (fun _ => true) "f".data
        ⟨[(1, ⟨"alice".data, "k".data⟩)], [("/admin".data, [1])]⟩
        "/pub".data true none =
      (AuthReturn.AuthConfirmed, []) :=
  ⟨(c4_public_path_bypass (fun _ _ => VerifyOutcome.mismatch)
      (fun _ => none) (fun _ => none) (fun _ => true) "f".data
      (fun _ _ => false)
      ⟨[(1, ⟨"alice".data, "k".data⟩)], [("/admin".data, [1])]⟩
      "/pub".data (by decide)).1 true (some "Basic Zm9v".data),
    (c4_public_path_bypass (fun _ _ => VerifyOutcome.mismatch)
      (fun _ => none) (fun _ => none) (fun _ => true) "f".data
      (fun _ _ => false)
      ⟨[(1, ⟨"alice".data, "k".data⟩)], [("/admin".data, [1])]⟩
      "/pub".data (by decide)).1 true none⟩

/-- Structural half of C5 (the wall-clock clause itself is not expressible
here): when the supplied username matches no stored user the Argon2
verifier is still invoked once, on the precomputed fake password hash, and
the response status is 401 — the same status produced for a known username
with a wrong password, where the verifier is likewise invoked once. -/
theorem auth_unknown_username_structural (verify : Str → Str → VerifyOutcome)
    (b64decode : Str → Option Bytes) (utf8decode : Bytes → Option Str)
    (hashParses : Str → Bool) (fakePasswordHash : Str) (c : AuthChecker)
    (path : Str) (hv b64 : Str) (decodedBytes : Bytes) (decoded : Str)
    (colonIndex : Nat) (pr : Str × List Uuid)
    (hfind : c.authRealms.find? (fun q => (q.1).isPrefixOf path) = some pr)
    (hstrip : stripLeading "Basic ".data hv = some b64)
    (hb64 : b64decode b64 = some decodedBytes)
    (hutf8 : utf8decode decodedBytes = some decoded)
    (hcolon : lastIndexOf ':' decoded = some colonIndex)
    (hfake : hashParses fakePasswordHash = true) :
    (((pr.2.filterMap (fun uuid => lookupKey uuid c.authUsers)).find?
        (fun x => x.username = decoded.take colonIndex) = none) →
      AuthChecker.checkAuth verify b64decode utf8decode hashParses
          fakePasswordHash c path true (some hv) =
        (AuthReturn.ResponseFromAuth 401 none,
          [(decoded.drop (colonIndex + 1), fakePasswordHash)])) ∧
    (∀ uap,
      ((pr.2.filterMap (fun uuid => lookupKey uuid c.authUsers)).find?
          (fun x => x.username = decoded.take colonIndex) = some uap) →
      hashParses uap.storedKey = true →
      verify (decoded.drop (colonIndex + 1)) uap.storedKey =
        VerifyOutcome.mismatch →
      AuthChecker.checkAuth verify b64decode utf8decode hashParses
          fakePasswordHash c path true (some hv) =
        (AuthReturn.ResponseFromAuth 401 none,
          [(decoded.drop (colonIndex + 1), uap.storedKey)])) := by
  constructor
  · intro hunknown
    simp [AuthChecker.checkAuth, hfind, hstrip, hb64, hutf8, hcolon,
      hunknown, hfake]
  · intro uap hknown hparse hver
    simp [AuthChecker.checkAuth, hfind, hstrip, hb64, hutf8, hcolon,
      hknown, hparse, hver]

end Shove
